import Mathlib

set_option maxHeartbeats 1000000

attribute [local semireducible] Rat.add Rat.mul Rat.sub Rat.inv

/-
Shallow embedding of the analytical core of the ProductAssociationForecast
repository, with theorems checking the natural-language specification against
the code.

Conventions used throughout:
* Product and transaction identifiers are opaque strings in the source; they
  are modelled as naturals.
* Dates are modelled as integers (day numbers); calendar-derived columns are
  deterministic functions of the day number.
* IEEE-754 doubles are modelled as exact rationals where the source only adds,
  multiplies, divides and compares (association analysis, feature building),
  and as reals where the source takes square roots (inventory optimization,
  forecast seeding).
-/

/-! ## src/utils/association_analysis.py -/

/-- A row of the transaction table as read by `create_transaction_matrix`:
(TransactionID, ProductID).  The Quantity column is not read there. -/
abbrev TransactionLine := ℕ × ℕ

/-- The one-hot transaction matrix produced by `TransactionEncoder`: one
column per distinct product (`te.columns_`, sorted), one row per transaction,
each row determined by the transaction's set of distinct products. -/
structure TransactionMatrix where
  columns : List ℕ
  baskets : List (Finset ℕ)

/-- `create_transaction_matrix`: group the rows by TransactionID (pandas sorts
the group keys ascending), collect each transaction's products, and one-hot
encode.  The matrix is empty iff the basket list is empty. -/
def create_transaction_matrix (transaction_data : List TransactionLine) :
    TransactionMatrix where
  columns := List.insertionSort (· ≤ ·) (transaction_data.map Prod.snd).dedup
  baskets :=
    (List.insertionSort (· ≤ ·) (transaction_data.map Prod.fst).dedup).map
      (fun t => ((transaction_data.filter (fun l => l.1 = t)).map Prod.snd).toFinset)

/-- Support of an itemset over the matrix rows: the fraction of baskets
containing every item of the set. -/
def supp (baskets : List (Finset ℕ)) (s : Finset ℕ) : ℚ :=
  ((baskets.countP (fun b => decide (s ⊆ b))) : ℚ) / (baskets.length : ℚ)

/-- `mlxtend.frequent_patterns.apriori(matrix, min_support=…, use_colnames=True,
max_len=…)`: the level-wise search is exhaustive by anti-monotonicity of
support, so the call returns exactly the itemsets over the matrix columns of
size 1..max_len whose support meets `min_support`, each with its support.
Extensional model of the library call. -/
def apriori (m : TransactionMatrix) (min_support : ℚ) (max_len : ℕ) :
    List (Finset ℕ × ℚ) :=
  ((m.columns.sublists.map List.toFinset).filter
    (fun s => decide (s ≠ ∅ ∧ s.card ≤ max_len ∧ min_support ≤ supp m.baskets s))).map
    (fun s => (s, supp m.baskets s))

/-- One association rule as produced by `mlxtend`'s `association_rules`,
keeping the columns the repository reads. -/
structure ARule where
  antecedents : Finset ℕ
  consequents : Finset ℕ
  support : ℚ
  confidence : ℚ
  lift : ℚ
  deriving DecidableEq

/-- `mlxtend.frequent_patterns.association_rules(frequent_itemsets,
metric="confidence", min_threshold=…)`: for each frequent itemset of size ≥ 2,
emit every split into a non-empty proper-subset antecedent and its complement
consequent, keeping the rules whose confidence meets the threshold.  Antecedent
candidates are enumerated from the itemset table itself: for tables produced by
`apriori` this is exactly every non-empty proper subset, because support is
anti-monotone and `apriori` is exhaustive, so every such subset is itself a
table entry.  The library reads supports from the table; the table produced by
`apriori` records `supp baskets ·`, so the looked-up values are written as
`supp baskets ·` directly. -/
def association_rules (baskets : List (Finset ℕ))
    (frequent_itemsets : List (Finset ℕ × ℚ)) (min_threshold : ℚ) : List ARule :=
  frequent_itemsets.flatMap (fun sp =>
    if 2 ≤ sp.1.card then
      ((frequent_itemsets.map Prod.fst).filter
          (fun a => decide (a ≠ ∅ ∧ a ⊂ sp.1))).filterMap
        (fun a =>
          let conf := supp baskets sp.1 / supp baskets a
          if min_threshold ≤ conf then
            some ⟨a, sp.1 \ a, supp baskets sp.1, conf,
                  conf / supp baskets (sp.1 \ a)⟩
          else none)
    else [])

/-- The comparison used for `rules.sort_values('lift', ascending=False)`. -/
def liftDesc (a b : ARule) : Prop := b.lift ≤ a.lift

instance : DecidableRel liftDesc :=
  fun a b => inferInstanceAs (Decidable (b.lift ≤ a.lift))

instance : IsTotal ARule liftDesc := ⟨fun a b => le_total b.lift a.lift⟩

instance : IsTrans ARule liftDesc := ⟨fun _ _ _ h1 h2 => le_trans h2 h1⟩

/-- The genuinely mined rule table of `perform_association_analysis`: rules
generated from the apriori itemsets at the confidence threshold, filtered by
`rules['lift'] >= min_lift`, sorted descending by lift. -/
def minedRules (m : TransactionMatrix)
    (min_support min_confidence min_lift : ℚ) : List ARule :=
  List.insertionSort liftDesc
    ((association_rules m.baskets (apriori m min_support 4) min_confidence).filter
      (fun r => decide (min_lift ≤ r.lift)))

/-- The one-hot matrix of the sample transactions hard-coded in
`create_sample_association_data`, with Product A..Product F rendered as
0..5. -/
def sampleMatrix : TransactionMatrix where
  columns := [0, 1, 2, 3, 4, 5]
  baskets :=
    [{0, 1}, {0, 2}, {0, 1, 2}, {1, 2}, {1, 3}, {2, 3}, {0, 3}, {0, 1, 3},
     {0, 2, 3}, {1, 2, 3}, {4, 5}, {3, 4}, {2, 5}, {0, 5}]

/-- `create_sample_association_data`: apriori on the sample baskets at support
0.20 with no size cap (6 = number of distinct sample products, so 6 is a cap
that never binds) and rules at confidence 0.50; no lift filter and no sort are
applied on this path. -/
def create_sample_association_data : List (Finset ℕ × ℚ) × List ARule :=
  (apriori sampleMatrix (1/5) 6,
   association_rules sampleMatrix.baskets (apriori sampleMatrix (1/5) 6) (1/2))

/-- `perform_association_analysis(transaction_data, min_support,
min_confidence, min_lift)`.  In the source the lift filter and emptiness check
happen before the sort; sorting is length-preserving, so the emptiness check is
equivalently placed on the sorted list here. -/
def perform_association_analysis (transaction_data : List TransactionLine)
    (min_support min_confidence min_lift : ℚ) :
    List (Finset ℕ × ℚ) × List ARule :=
  let m := create_transaction_matrix transaction_data
  if m.baskets.isEmpty then create_sample_association_data
  else
    let frequent_itemsets := apriori m min_support 4
    if frequent_itemsets.isEmpty then create_sample_association_data
    else
      let rules := minedRules m min_support min_confidence min_lift
      if rules.isEmpty then create_sample_association_data
      else (frequent_itemsets, rules)

/-! ## src/utils/data_processing.py — add_association_features -/

/-- A row of the daily feature table as read and written by
`add_association_features`: only the Date, ProductID and Quantity columns are
consulted; the remaining feature columns are untouched and omitted. -/
structure DailyRow where
  date : ℤ
  productId : ℕ
  quantity : ℚ
  deriving DecidableEq

/-- A rule as consumed by `add_association_features`: it reads
`list(row['antecedents'])`, `list(row['consequents'])` and
`row['confidence']`. -/
structure FeatureRule where
  antecedents : List ℕ
  consequents : List ℕ
  confidence : ℚ
  deriving DecidableEq

/-- Lookup in the association-list model of the `product_associations`
dict. -/
def dictFind (acc : List (ℕ × List (ℕ × ℚ))) (a : ℕ) : Option (List (ℕ × ℚ)) :=
  match acc with
  | [] => none
  | kv :: rest => if kv.1 = a then some kv.2 else dictFind rest a

/-- One dict update of the first loop of `add_association_features`: create
the key with an empty pair list if absent, then append the new pairs to its
entry.  The dict is modelled as an association list with unique keys. -/
def dictInsertAppend (acc : List (ℕ × List (ℕ × ℚ))) (a : ℕ)
    (pairs : List (ℕ × ℚ)) : List (ℕ × List (ℕ × ℚ)) :=
  match dictFind acc a with
  | some old => acc.map (fun kv => if kv.1 = a then (a, old ++ pairs) else kv)
  | none => acc ++ [(a, pairs)]

/-- The `product_associations` dict built by the first loop of
`add_association_features`: iterate the rules in order and, for each
antecedent of each rule, append one `(consequent, confidence)` pair per
consequent.  Keys are inserted on first sight even when a rule has no
consequents. -/
def buildProductAssociations (rules : List FeatureRule) :
    List (ℕ × List (ℕ × ℚ)) :=
  rules.foldl
    (fun acc r =>
      r.antecedents.foldl
        (fun acc2 a => dictInsertAppend acc2 a (r.consequents.map (fun c => (c, r.confidence))))
        acc)
    []

/-- `df[(df['ProductID'] == p) & (df['Date'] == d)]['Quantity'].values`,
first entry if any: the recorded daily sale of product `p` on date `d`. -/
def salesOn (df : List DailyRow) (p : ℕ) (d : ℤ) : Option ℚ :=
  ((df.filter (fun r => r.productId = p ∧ r.date = d)).head?).map (·.quantity)

/-- The inner per-(product, date) loop of `add_association_features`:
accumulate `quantity × confidence` over the associated pairs that have a
recorded sale on the date, count them, and average; 0 when none qualifies. -/
def avgAssociatedSales (df : List DailyRow) (pairs : List (ℕ × ℚ)) (d : ℤ) : ℚ :=
  let acc := pairs.foldl
    (fun (sc : ℚ × ℕ) cp =>
      match salesOn df cp.1 d with
      | some q => (sc.1 + q * cp.2, sc.2 + 1)
      | none => sc)
    (0, 0)
  if 0 < acc.2 then acc.1 / (acc.2 : ℚ) else 0

/-- `add_association_features(daily_sales, association_rules, transaction_data)`
(the third argument is not read): each row of the table gets an
`AssociatedProductSales` value; rows whose product is a key of the
associations dict get the weighted average for their date, all others are
left missing and filled with 0. -/
def add_association_features (daily_sales : List DailyRow)
    (rules : List FeatureRule) : List (DailyRow × ℚ) :=
  let assoc := buildProductAssociations rules
  daily_sales.map (fun r =>
    (r, match dictFind assoc r.productId with
        | some pairs => avgAssociatedSales daily_sales pairs r.date
        | none => 0))

/-- The `(consequent, confidence)` pairs of the rules having `x` among their
antecedents, in rule order: the claim's "rules X→Y_i with confidences
c_i". -/
def ruleLinked (rules : List FeatureRule) (x : ℕ) : List (ℕ × ℚ) :=
  rules.flatMap (fun r =>
    if x ∈ r.antecedents then r.consequents.map (fun c => (c, r.confidence)) else [])

/-- The Feature Builder clause of the specification, stated in its own words:
the value for product X on date D is the sum over rule-linked consequents with
a recorded sale on D of `sale × confidence`, divided by the number of such
consequents; 0 when no qualifying sale exists or X is antecedent of no
rule. -/
def specAssociatedProductSales (df : List DailyRow) (rules : List FeatureRule)
    (x : ℕ) (d : ℤ) : ℚ :=
  let hits := (ruleLinked rules x).filterMap
    (fun cp => (salesOn df cp.1 d).map (fun q => q * cp.2))
  if hits.length = 0 then 0 else hits.sum / (hits.length : ℚ)

/-! ## src/utils/forecasting.py — train_forecasting_model -/

/-- A row of the raw transaction table as read by `predict_demand`. -/
structure SaleRow where
  date : ℤ
  productId : ℕ
  quantity : ℝ

/-- A row of the forecast table: (Date, ProductID, Predicted_Quantity). -/
structure ForecastRow where
  date : ℤ
  productId : ℕ
  predicted : ℝ

/-- Mean of a list of reals (0 on the empty list, matching the `n = 0` and
`NaN`-free uses below). -/
noncomputable def listMean (xs : List ℝ) : ℝ := xs.sum / (xs.length : ℝ)

/-- Sample standard deviation with `ddof=1`, as pandas computes it.  For a
single observation pandas yields `NaN`; `predict_demand` replaces a `NaN`
rolling std by 0, and this model returns 0 there directly (division by
`n - 1 = 0` gives 0 in Lean, and `Real.sqrt 0 = 0`). -/
noncomputable def sampleStd (xs : List ℝ) : ℝ :=
  Real.sqrt ((xs.map (fun x => (x - listMean xs) ^ 2)).sum / ((xs.length : ℝ) - 1))

/-- Maximum of a list of dates, 0 on the empty list (where pandas gives
`NaT`/`NaN`; the callers below never consult that case). -/
def maxDate (ds : List ℤ) : ℤ :=
  match ds with
  | [] => 0
  | x :: xs => xs.foldr max x

/-- Minimum of a list of dates, 0 on the empty list. -/
def minDate (ds : List ℤ) : ℤ :=
  match ds with
  | [] => 0
  | x :: xs => xs.foldr min x

/-- `data['Date'].max()` over the modelled rows. -/
def latestDate (data : List SaleRow) : ℤ :=
  maxDate (data.map (·.date))

/-- `aggregate_daily_sales`: group by (Date, ProductID) — here the data is
already restricted to one product — and sum quantities per date; pandas
returns the groups with sorted keys. -/
noncomputable def aggregate_daily_sales (product_data : List SaleRow) :
    List (ℤ × ℝ) :=
  (List.insertionSort (· ≤ ·) (product_data.map (·.date)).dedup).map
    (fun d => (d, ((product_data.filter (fun r => r.date = d)).map (·.quantity)).sum))

/-- The lag/rolling seed values computed from the most recent ≤ 30 daily
rows (`sort_values('Date', ascending=False).head(30)`). -/
structure LagSeed where
  lag1 : ℝ
  lag7 : ℝ
  lag14 : ℝ
  lag30 : ℝ
  rollingMean7 : ℝ
  rollingMean14 : ℝ
  rollingMean30 : ℝ
  rollingStd7 : ℝ

/-- The date comparison for `sort_values('Date', ascending=False)`. -/
def dateDescQ (a b : ℤ × ℝ) : Prop := b.1 ≤ a.1

instance : DecidableRel dateDescQ :=
  fun a b => inferInstanceAs (Decidable (b.1 ≤ a.1))

instance : IsTotal (ℤ × ℝ) dateDescQ := ⟨fun a b => le_total b.1 a.1⟩

instance : IsTrans (ℤ × ℝ) dateDescQ := ⟨fun _ _ _ h1 h2 => le_trans h2 h1⟩

/-- The `latest_values` block of `predict_demand`: seed each lag with the
value that many days back in the recent window when available, else the most
recent value; rolling means over the 7/14/30 most recent rows; rolling std
over the 7 most recent rows with the `NaN` guard; all zeros when there is no
recent data. -/
noncomputable def latestLagValues (daily : List (ℤ × ℝ)) : LagSeed :=
  let last30 := (List.insertionSort dateDescQ daily).take 30
  match h : last30 with
  | [] =>
    { lag1 := 0, lag7 := 0, lag14 := 0, lag30 := 0,
      rollingMean7 := 0, rollingMean14 := 0, rollingMean30 := 0, rollingStd7 := 0 }
  | q :: _ =>
    let latestQty := q.2
    { lag1 := latestQty
      lag7 := if hl : 7 ≤ last30.length then (last30.get ⟨6, by omega⟩).2 else latestQty
      lag14 := if hl : 14 ≤ last30.length then (last30.get ⟨13, by omega⟩).2 else latestQty
      lag30 := if hl : 30 ≤ last30.length then (last30.get ⟨29, by omega⟩).2 else latestQty
      rollingMean7 := listMean ((last30.take 7).map (·.2))
      rollingMean14 := listMean ((last30.take 14).map (·.2))
      rollingMean30 := listMean (last30.map (·.2))
      rollingStd7 := sampleStd ((last30.take 7).map (·.2)) }

/-- The prediction-time feature row handed to the stored model, after one-hot
encoding and alignment to the stored column order: any stored column absent
from the built frame is filled with 0, and only stored columns are passed, so
alignment holds by construction (lines 198–209 of the source). -/
structure PredInput where
  date : ℤ
  productId : ℕ
  lags : LagSeed
  associatedProductSales : Option ℝ
  oneHot : List Bool

/-- `predict_demand(model, data, products_to_forecast, horizon)`: for each
requested product with history, build one feature row per future date, predict
with the stored model, and clip predictions at 0; products without history are
skipped.  `hasAssocFeature` mirrors
`'AssociatedProductSales' in model.feature_names_in_`. -/
noncomputable def predict_demand (model : PredInput → ℝ) (hasAssocFeature : Bool)
    (data : List SaleRow) (products_to_forecast : List ℕ) (horizon : ℕ) :
    List ForecastRow :=
  let future_dates := (List.range horizon).map (fun i => latestDate data + (i : ℤ) + 1)
  products_to_forecast.flatMap (fun product_id =>
    let product_data := data.filter (fun r => r.productId = product_id)
    if product_data.isEmpty then []
    else
      let daily := aggregate_daily_sales product_data
      let seed := latestLagValues daily
      future_dates.map (fun d =>
        { date := d, productId := product_id,
          predicted :=
            max 0 (model
              { date := d, productId := product_id, lags := seed,
                associatedProductSales := if hasAssocFeature then some 0 else none,
                oneHot := products_to_forecast.map (fun q => q == product_id) }) }))

/-! ## src/utils/inventory_optimization.py

Reals again (service factors, square roots).  `calculate_reorder_points` reads
the wall clock (`datetime.now().date()`); the current date is therefore an
explicit `today` argument of the model. -/

/-- A row of the historical daily demand table as read by
`calculate_safety_stock`: only ProductID and Quantity are consulted. -/
structure DemandRow where
  productId : ℕ
  quantity : ℝ

/-- A row of the historical table as read by
`calculate_economic_order_quantity`: ProductID, Quantity, Price and Date. -/
structure PricedRow where
  productId : ℕ
  date : ℤ
  quantity : ℝ
  price : ℝ

/-- The sorted distinct product ids of a grouped table (pandas `groupby`
sorts its keys). -/
def sortedPids (pids : List ℕ) : List ℕ :=
  List.insertionSort (· ≤ ·) pids.dedup

/-- The per-product quantity series of the demand table. -/
def qtysOf (hist : List DemandRow) (p : ℕ) : List ℝ :=
  (hist.filter (fun r => r.productId = p)).map (·.quantity)

/-- The service-level → z-factor lookup, with 1.645 as the
`service_factors.get(service_level, 1.645)` default.  The service level is a
ℚ so the dictionary lookup stays decidable. -/
noncomputable def serviceFactor (service_level : ℚ) : ℝ :=
  if service_level = 90/100 then 1.282
  else if service_level = 95/100 then 1.645
  else if service_level = 98/100 then 2.054
  else if service_level = 99/100 then 2.326
  else 1.645

/-- The safety stock of one product: `std * factor * sqrt(lead_time_days)`,
replaced by `mean * 0.2` when the std is exactly 0, then `np.ceil` and cast to
int. -/
noncomputable def safetyStockOf (hist : List DemandRow) (service_level : ℚ)
    (lead_time_days : ℕ) (p : ℕ) : ℤ :=
  let mean := listMean (qtysOf hist p)
  let std := sampleStd (qtysOf hist p)
  ⌈if std = 0 then mean * 0.2
    else std * serviceFactor service_level * Real.sqrt (lead_time_days : ℝ)⌉

/-- `calculate_safety_stock`: one row per product with its demand mean, std
and safety stock. -/
noncomputable def calculate_safety_stock (hist : List DemandRow)
    (service_level : ℚ) (lead_time_days : ℕ) : List (ℕ × ℝ × ℝ × ℤ) :=
  (sortedPids (hist.map (·.productId))).map (fun p =>
    (p, listMean (qtysOf hist p), sampleStd (qtysOf hist p),
     safetyStockOf hist service_level lead_time_days p))

/-- The forecast rows inside the lead-time window
`today <= Date <= today + lead_time_days`. -/
def windowRows (fore : List ForecastRow) (today : ℤ) (lead_time_days : ℕ) :
    List ForecastRow :=
  fore.filter (fun r => today ≤ r.date ∧ r.date ≤ today + (lead_time_days : ℤ))

/-- The lead-time demand of one product: the windowed forecast total, or
`mean * lead_time_days` when the product has no forecast rows in the window
(the `fillna` after the left merge). -/
noncomputable def leadTimeDemandOf (hist : List DemandRow)
    (fore : List ForecastRow) (lead_time_days : ℕ) (today : ℤ) (p : ℕ) : ℝ :=
  let w := ((windowRows fore today lead_time_days).filter
    (fun r => r.productId = p)).map (·.predicted)
  if w.isEmpty then listMean (qtysOf hist p) * (lead_time_days : ℝ) else w.sum

/-- The reorder point of one product:
`ceil(lead_time_demand + safety_stock)`. -/
noncomputable def reorderPointOf (hist : List DemandRow) (fore : List ForecastRow)
    (lead_time_days : ℕ) (service_level : ℚ) (today : ℤ) (p : ℕ) : ℤ :=
  ⌈leadTimeDemandOf hist fore lead_time_days today p
    + (safetyStockOf hist service_level lead_time_days p : ℝ)⌉

/-- `calculate_reorder_points(historical_demand, forecast_demand,
lead_time_days, service_level)` with the wall-clock date `today` made an
explicit argument: one row per product with mean, std, safety stock,
lead-time demand and reorder point. -/
noncomputable def calculate_reorder_points (hist : List DemandRow)
    (fore : List ForecastRow) (lead_time_days : ℕ) (service_level : ℚ)
    (today : ℤ) : List (ℕ × ℝ × ℝ × ℤ × ℝ × ℤ) :=
  (sortedPids (hist.map (·.productId))).map (fun p =>
    (p, listMean (qtysOf hist p), sampleStd (qtysOf hist p),
     safetyStockOf hist service_level lead_time_days p,
     leadTimeDemandOf hist fore lead_time_days today p,
     reorderPointOf hist fore lead_time_days service_level today p))

/-- `(hist['Date'].max() - hist['Date'].min()).days`, floored at 1. -/
def daysInData (hist : List PricedRow) : ℤ :=
  let ds := hist.map (·.date)
  let span := maxDate ds - minDate ds
  if span < 1 then 1 else span

/-- The economic order quantity of one product:
`ceil(sqrt(2 * annual_demand * ordering_cost / holding_cost))` with
`annual_demand = total_quantity * 365 / days_in_data` and
`holding_cost = mean_price * holding_cost_pct`. -/
noncomputable def eoqOf (hist : List PricedRow) (holding_cost_pct ordering_cost : ℝ)
    (p : ℕ) : ℤ :=
  let total := ((hist.filter (fun r => r.productId = p)).map (·.quantity)).sum
  let annual := total * (365 / (daysInData hist : ℝ))
  let price := listMean ((hist.filter (fun r => r.productId = p)).map (·.price))
  ⌈Real.sqrt (2 * annual * ordering_cost / (price * holding_cost_pct))⌉

/-- `calculate_economic_order_quantity`: one row per product with its
annualized demand, mean price and EOQ.  (The required-column check always
passes in this typed model; `lead_time_days` is not an argument.) -/
noncomputable def calculate_economic_order_quantity (hist : List PricedRow)
    (holding_cost_pct ordering_cost : ℝ) : List (ℕ × ℝ × ℝ × ℤ) :=
  (sortedPids (hist.map (·.productId))).map (fun p =>
    (p,
     ((hist.filter (fun r => r.productId = p)).map (·.quantity)).sum
       * (365 / (daysInData hist : ℝ)),
     listMean ((hist.filter (fun r => r.productId = p)).map (·.price)),
     eoqOf hist holding_cost_pct ordering_cost p))

/-! ## Theorems -/

/-- Support is a non-negative rational. -/
theorem supp_nonneg (baskets : List (Finset ℕ)) (s : Finset ℕ) :
    0 ≤ supp baskets s := by
  unfold supp
  positivity

/-- Support is anti-monotone under the subset order. -/
theorem supp_le_supp_of_subset (baskets : List (Finset ℕ)) {a s : Finset ℕ}
    (h : a ⊆ s) : supp baskets s ≤ supp baskets a := by
  unfold supp
  rcases baskets with _ | ⟨b, bs⟩
  · simp
  · apply div_le_div_of_nonneg_right _ (by positivity)
    · exact_mod_cast List.countP_mono_left (fun x _ hx =>
        decide_eq_true (Finset.Subset.trans h (of_decide_eq_true hx)))

/-- Claim C1, counterexample: on the empty transaction table — a legitimate
"nothing found" case — `perform_association_analysis` does not return empty
tables; it returns the non-empty sample demonstration rule table. -/
theorem c1_counterexample :
    (perform_association_analysis [] (1/100) (1/2) 1).2 ≠ [] := by decide

/-- Claim C1 (amended): when mining finds no frequent itemsets or no rules
pass the thresholds (including the empty-input case),
`perform_association_analysis` substitutes the fixed sample demonstration
data instead of returning empty tables, so on every input both returned
tables are non-empty; the function is total (never raises) either way. -/
theorem c1_amended (transaction_data : List TransactionLine)
    (min_support min_confidence min_lift : ℚ) :
    (perform_association_analysis transaction_data min_support min_confidence
      min_lift).1 ≠ []
    ∧ (perform_association_analysis transaction_data min_support min_confidence
      min_lift).2 ≠ [] := by
  unfold perform_association_analysis
  dsimp only
  split
  · exact ⟨by decide, by decide⟩
  · split
    · exact ⟨by decide, by decide⟩
    · split
      · exact ⟨by decide, by decide⟩
      · rename_i hfi hrules
        refine ⟨fun h => hfi ?_, fun h => hrules ?_⟩
        · simpa [List.isEmpty_iff] using h
        · simpa [List.isEmpty_iff] using h

/-- Claim C4, counterexample: with min_confidence = 0.9 and empty input, the
returned table is the sample fallback, and it contains a rule whose confidence
is below the caller's threshold. -/
theorem c4_counterexample :
    ∃ r ∈ (perform_association_analysis [] (1/100) (9/10) 1).2,
      r.confidence < 9/10 := by decide

/-- Claim C4 (amended): every rule of the genuinely mined table — i.e.
whenever the sample fallback is not taken — has disjoint antecedent and
consequent, confidence in [0,1] equal to
support(antecedent ∪ consequent)/support(antecedent), lift equal to
confidence/support(consequent), confidence ≥ min_confidence and
lift ≥ min_lift; the sample fallback tables need not meet the caller's
thresholds. -/
theorem c4_amended (m : TransactionMatrix)
    (min_support min_confidence min_lift : ℚ) (hs : 0 < min_support)
    (r : ARule) (hr : r ∈ minedRules m min_support min_confidence min_lift) :
    r.antecedents ∩ r.consequents = ∅
    ∧ 0 ≤ r.confidence ∧ r.confidence ≤ 1
    ∧ r.confidence
        = supp m.baskets (r.antecedents ∪ r.consequents) / supp m.baskets r.antecedents
    ∧ r.lift = r.confidence / supp m.baskets r.consequents
    ∧ min_confidence ≤ r.confidence ∧ min_lift ≤ r.lift := by
  unfold minedRules at hr
  rw [List.mem_insertionSort] at hr
  rw [List.mem_filter] at hr
  obtain ⟨hr, hlift⟩ := hr
  have hlift : min_lift ≤ r.lift := of_decide_eq_true hlift
  unfold association_rules at hr
  rw [List.mem_flatMap] at hr
  obtain ⟨sp, hsp, hr⟩ := hr
  by_cases hcard : 2 ≤ sp.1.card
  swap
  · rw [if_neg hcard] at hr; cases hr
  rw [if_pos hcard] at hr
  rw [List.mem_filterMap] at hr
  obtain ⟨a, ha, hfa⟩ := hr
  rw [List.mem_filter] at ha
  obtain ⟨-, ha2⟩ := ha
  have ha2 : a ≠ ∅ ∧ a ⊂ sp.1 := of_decide_eq_true ha2
  -- the support recorded for sp in the apriori table meets the threshold
  have hsupp : min_support ≤ supp m.baskets sp.1 := by
    unfold apriori at hsp
    rw [List.mem_map] at hsp
    obtain ⟨s0, hs0, heq⟩ := hsp
    rw [List.mem_filter] at hs0
    obtain ⟨-, hs0⟩ := hs0
    have hs0 : s0 ≠ ∅ ∧ s0.card ≤ 4 ∧ min_support ≤ supp m.baskets s0 :=
      of_decide_eq_true hs0
    have : s0 = sp.1 := by rw [← heq]
    rw [← this]
    exact hs0.2.2
  have hsub : a ⊆ sp.1 := ha2.2.subset
  have hmono : supp m.baskets sp.1 ≤ supp m.baskets a :=
    supp_le_supp_of_subset m.baskets hsub
  have hapos : 0 < supp m.baskets a := lt_of_lt_of_le hs (le_trans hsupp hmono)
  by_cases hconf : min_confidence ≤ supp m.baskets sp.1 / supp m.baskets a
  swap
  · rw [if_neg hconf] at hfa; cases hfa
  rw [if_pos hconf] at hfa
  obtain rfl := Option.some.inj hfa
  refine ⟨Finset.inter_sdiff_self a sp.1, ?_, ?_, ?_, rfl, hconf, hlift⟩
  · exact div_nonneg (supp_nonneg _ _) (le_of_lt hapos)
  · exact (div_le_one hapos).mpr hmono
  · rw [Finset.union_sdiff_of_subset hsub]

/-- Witness for `c4_amended` at a concrete mined table: three transactions
{0,1}, {0,1}, {0} with thresholds (0.1, 0.5, 0.9) mine the rule
{0} → {1} with support 2/3, confidence 2/3, lift 1. -/
theorem c4_witness :
    (⟨{0}, {1}, 2/3, 2/3, 1⟩ : ARule).antecedents
        ∩ (⟨{0}, {1}, 2/3, 2/3, 1⟩ : ARule).consequents = ∅
    ∧ 0 ≤ (⟨{0}, {1}, 2/3, 2/3, 1⟩ : ARule).confidence
    ∧ (⟨{0}, {1}, 2/3, 2/3, 1⟩ : ARule).confidence ≤ 1
    ∧ (⟨{0}, {1}, 2/3, 2/3, 1⟩ : ARule).confidence
        = supp (create_transaction_matrix [(0,0),(0,1),(1,0),(1,1),(2,0)]).baskets
            ((⟨{0}, {1}, 2/3, 2/3, 1⟩ : ARule).antecedents
              ∪ (⟨{0}, {1}, 2/3, 2/3, 1⟩ : ARule).consequents)
          / supp (create_transaction_matrix [(0,0),(0,1),(1,0),(1,1),(2,0)]).baskets
            (⟨{0}, {1}, 2/3, 2/3, 1⟩ : ARule).antecedents
    ∧ (⟨{0}, {1}, 2/3, 2/3, 1⟩ : ARule).lift
        = (⟨{0}, {1}, 2/3, 2/3, 1⟩ : ARule).confidence
          / supp (create_transaction_matrix [(0,0),(0,1),(1,0),(1,1),(2,0)]).baskets
            (⟨{0}, {1}, 2/3, 2/3, 1⟩ : ARule).consequents
    ∧ (1/2 : ℚ) ≤ (⟨{0}, {1}, 2/3, 2/3, 1⟩ : ARule).confidence
    ∧ (9/10 : ℚ) ≤ (⟨{0}, {1}, 2/3, 2/3, 1⟩ : ARule).lift :=
  c4_amended (create_transaction_matrix [(0,0),(0,1),(1,0),(1,1),(2,0)])
    (1/10) (1/2) (9/10) (by norm_num) ⟨{0}, {1}, 2/3, 2/3, 1⟩ (by decide)

/-- Claim C5, counterexample: with min_support = 0.5 and empty input, the
returned itemset table is the sample fallback, and it contains an itemset
whose recorded support is below the caller's threshold. -/
theorem c5_counterexample :
    ∃ p ∈ (perform_association_analysis [] (1/2) (1/2) 1).1, p.2 < 1/2 := by
  decide

/-- Claim C5 (amended): every itemset of the genuinely mined frequent-itemset
table — i.e. whenever the sample fallback is not taken — has recorded support
equal to its support over the baskets, at least min_support, and at most 4
products; the sample fallback table is only guaranteed support ≥ 0.2. -/
theorem c5_amended (m : TransactionMatrix) (min_support : ℚ)
    (p : Finset ℕ × ℚ) (hp : p ∈ apriori m min_support 4) :
    min_support ≤ p.2 ∧ p.2 = supp m.baskets p.1 ∧ p.1.card ≤ 4 ∧ p.1 ≠ ∅ := by
  unfold apriori at hp
  rw [List.mem_map] at hp
  obtain ⟨s0, hs0, heq⟩ := hp
  rw [List.mem_filter] at hs0
  obtain ⟨-, hs0⟩ := hs0
  have hs0 : s0 ≠ ∅ ∧ s0.card ≤ 4 ∧ min_support ≤ supp m.baskets s0 :=
    of_decide_eq_true hs0
  obtain rfl := heq.symm
  exact ⟨hs0.2.2, rfl, hs0.2.1, hs0.1⟩

/-- Witness for `c5_amended` at the same concrete matrix: the itemset {0,1}
is mined with support 2/3 at min_support = 0.1. -/
theorem c5_witness :
    (1/10 : ℚ) ≤ (({0, 1} : Finset ℕ), (2/3 : ℚ)).2
    ∧ (({0, 1} : Finset ℕ), (2/3 : ℚ)).2
        = supp (create_transaction_matrix [(0,0),(0,1),(1,0),(1,1),(2,0)]).baskets
            (({0, 1} : Finset ℕ), (2/3 : ℚ)).1
    ∧ (({0, 1} : Finset ℕ), (2/3 : ℚ)).1.card ≤ 4
    ∧ (({0, 1} : Finset ℕ), (2/3 : ℚ)).1 ≠ ∅ :=
  c5_amended (create_transaction_matrix [(0,0),(0,1),(1,0),(1,1),(2,0)])
    (1/10) (({0, 1} : Finset ℕ), (2/3 : ℚ)) (by decide)

theorem dictFind_append_self (acc : List (ℕ × List (ℕ × ℚ))) (a : ℕ)
    (pairs : List (ℕ × ℚ)) (h : dictFind acc a = none) :
    dictFind (acc ++ [(a, pairs)]) a = some pairs := by
  induction acc with
  | nil => simp [dictFind]
  | cons kv rest ih =>
    simp only [dictFind] at h ⊢
    by_cases hk : kv.1 = a
    · simp [hk] at h
    · rw [if_neg hk] at h ⊢
      exact ih h

theorem dictFind_append_ne (acc : List (ℕ × List (ℕ × ℚ))) (a x : ℕ)
    (pairs : List (ℕ × ℚ)) (hx : x ≠ a) :
    dictFind (acc ++ [(a, pairs)]) x = dictFind acc x := by
  induction acc with
  | nil =>
    simp only [List.nil_append, dictFind]
    rw [if_neg (fun h => hx h.symm)]
  | cons kv rest ih =>
    simp only [List.cons_append, dictFind]
    by_cases hk : kv.1 = x
    · rw [if_pos hk, if_pos hk]
    · rw [if_neg hk, if_neg hk]
      exact ih

theorem dictFind_map_self (acc : List (ℕ × List (ℕ × ℚ))) (a : ℕ)
    (old pairs : List (ℕ × ℚ)) (h : dictFind acc a = some old) :
    dictFind (acc.map (fun kv => if kv.1 = a then (a, old ++ pairs) else kv)) a
      = some (old ++ pairs) := by
  induction acc with
  | nil => simp [dictFind] at h
  | cons kv rest ih =>
    simp only [dictFind] at h
    simp only [List.map_cons, dictFind]
    by_cases hk : kv.1 = a
    · rw [if_pos hk]
      simp [dictFind]
    · rw [if_neg hk] at h
      rw [if_neg hk, if_neg hk]
      exact ih h

theorem dictFind_map_ne (acc : List (ℕ × List (ℕ × ℚ))) (a x : ℕ)
    (old pairs : List (ℕ × ℚ)) (hx : x ≠ a) :
    dictFind (acc.map (fun kv => if kv.1 = a then (a, old ++ pairs) else kv)) x
      = dictFind acc x := by
  induction acc with
  | nil => rfl
  | cons kv rest ih =>
    simp only [List.map_cons]
    by_cases hk : kv.1 = a
    · rw [if_pos hk]
      show dictFind ((a, old ++ pairs) :: _) x = dictFind (kv :: rest) x
      simp only [dictFind]
      rw [if_neg (fun hax => hx hax.symm), if_neg (by rw [hk]; exact fun hax => hx hax.symm)]
      exact ih
    · rw [if_neg hk]
      show dictFind (kv :: _) x = dictFind (kv :: rest) x
      simp only [dictFind]
      by_cases hkx : kv.1 = x
      · rw [if_pos hkx, if_pos hkx]
      · rw [if_neg hkx, if_neg hkx]
        exact ih

/-- The updated key of `dictInsertAppend` maps to the old entry (empty when
the key was absent) extended by the new pairs. -/
theorem dictFind_insertAppend_self (acc : List (ℕ × List (ℕ × ℚ))) (a : ℕ)
    (pairs : List (ℕ × ℚ)) :
    dictFind (dictInsertAppend acc a pairs) a
      = some ((dictFind acc a).getD [] ++ pairs) := by
  unfold dictInsertAppend
  cases h : dictFind acc a with
  | none => simpa using dictFind_append_self acc a pairs h
  | some old => simpa using dictFind_map_self acc a old pairs h

/-- `dictInsertAppend` leaves every other key unchanged. -/
theorem dictFind_insertAppend_ne (acc : List (ℕ × List (ℕ × ℚ))) (a x : ℕ)
    (pairs : List (ℕ × ℚ)) (hx : x ≠ a) :
    dictFind (dictInsertAppend acc a pairs) x = dictFind acc x := by
  unfold dictInsertAppend
  cases h : dictFind acc a with
  | none => exact dictFind_append_ne acc a x pairs hx
  | some old => exact dictFind_map_ne acc a x old pairs hx

/-- Folding one rule's (duplicate-free) antecedent list into the dict: the
looked-up entry of `x` gains `pairs` exactly when `x` is among the
antecedents. -/
theorem dictFind_foldl_antecedents (pairs : List (ℕ × ℚ)) (x : ℕ) :
    ∀ (ants : List ℕ) (acc : List (ℕ × List (ℕ × ℚ))), ants.Nodup →
      dictFind (ants.foldl (fun acc2 a => dictInsertAppend acc2 a pairs) acc) x
        = if x ∈ ants then some ((dictFind acc x).getD [] ++ pairs)
          else dictFind acc x := by
  intro ants
  induction ants with
  | nil => intro acc _; simp
  | cons a rest ih =>
    intro acc hnd
    obtain ⟨hna, hndr⟩ := List.nodup_cons.mp hnd
    simp only [List.foldl_cons]
    rw [ih (dictInsertAppend acc a pairs) hndr]
    by_cases hxr : x ∈ rest
    · rw [if_pos hxr, if_pos (List.mem_cons_of_mem a hxr)]
      have hxa : x ≠ a := fun h => hna (h ▸ hxr)
      rw [dictFind_insertAppend_ne acc a x pairs hxa]
    · rw [if_neg hxr]
      by_cases hxa : x = a
      · subst hxa
        rw [if_pos (List.mem_cons_self x rest)]
        exact dictFind_insertAppend_self acc x pairs
      · rw [if_neg (by simp [hxa, hxr])]
        exact dictFind_insertAppend_ne acc a x pairs hxa

/-- A product that is antecedent of no rule has no linked pairs. -/
theorem ruleLinked_eq_nil (rules : List FeatureRule) (x : ℕ)
    (h : ∀ ru ∈ rules, x ∉ ru.antecedents) : ruleLinked rules x = [] := by
  induction rules with
  | nil => rfl
  | cons r rest ih =>
    unfold ruleLinked
    simp only [List.flatMap_cons]
    rw [if_neg (h r (List.mem_cons_self r rest))]
    simpa [ruleLinked] using ih (fun ru hru => h ru (List.mem_cons_of_mem r hru))

/-- The dict built by the first loop of `add_association_features`, looked up
at `x`: present iff `x` is an antecedent of some rule, with exactly the
rule-linked `(consequent, confidence)` pairs in rule order. -/
theorem dictFind_buildProductAssociations (rules : List FeatureRule) (x : ℕ)
    (hnd : ∀ ru ∈ rules, ru.antecedents.Nodup) :
    dictFind (buildProductAssociations rules) x
      = if ∃ ru ∈ rules, x ∈ ru.antecedents then some (ruleLinked rules x)
        else none := by
  suffices h : ∀ (rs : List FeatureRule) (acc : List (ℕ × List (ℕ × ℚ))),
      (∀ ru ∈ rs, ru.antecedents.Nodup) →
      dictFind (rs.foldl (fun acc r =>
          r.antecedents.foldl (fun acc2 a =>
            dictInsertAppend acc2 a (r.consequents.map (fun c => (c, r.confidence)))) acc)
        acc) x
        = if ∃ ru ∈ rs, x ∈ ru.antecedents
          then some ((dictFind acc x).getD [] ++ ruleLinked rs x)
          else dictFind acc x by
    unfold buildProductAssociations
    rw [h rules [] hnd]
    by_cases hex : ∃ ru ∈ rules, x ∈ ru.antecedents
    · rw [if_pos hex, if_pos hex]
      rfl
    · rw [if_neg hex, if_neg hex]
      rfl
  intro rs
  induction rs with
  | nil => intro acc _; simp [ruleLinked]
  | cons r rest ih =>
    intro acc hnd2
    simp only [List.foldl_cons]
    rw [ih _ (fun ru hru => hnd2 ru (List.mem_cons_of_mem r hru))]
    have hinner := dictFind_foldl_antecedents
      (r.consequents.map (fun c => (c, r.confidence))) x r.antecedents acc
      (hnd2 r (List.mem_cons_self r rest))
    have hlinked : ruleLinked (r :: rest) x
        = (if x ∈ r.antecedents
            then r.consequents.map (fun c => (c, r.confidence)) else [])
          ++ ruleLinked rest x := by
      unfold ruleLinked
      simp [List.flatMap_cons]
    by_cases hxr : x ∈ r.antecedents
    · rw [if_pos hxr] at hinner
      by_cases hex : ∃ ru ∈ rest, x ∈ ru.antecedents
      · rw [if_pos hex, hinner,
          if_pos (show ∃ ru ∈ r :: rest, x ∈ ru.antecedents from
            ⟨r, List.mem_cons_self r rest, hxr⟩)]
        rw [hlinked, if_pos hxr]
        simp [List.append_assoc]
      · rw [if_neg hex, hinner,
          if_pos (show ∃ ru ∈ r :: rest, x ∈ ru.antecedents from
            ⟨r, List.mem_cons_self r rest, hxr⟩)]
        rw [hlinked, if_pos hxr]
        rw [ruleLinked_eq_nil rest x (by
          intro ru hru hx
          exact hex ⟨ru, hru, hx⟩)]
        simp
    · rw [if_neg hxr] at hinner
      by_cases hex : ∃ ru ∈ rest, x ∈ ru.antecedents
      · rw [if_pos hex, hinner,
          if_pos (show ∃ ru ∈ r :: rest, x ∈ ru.antecedents from
            hex.imp (fun ru h => ⟨List.mem_cons_of_mem r h.1, h.2⟩))]
        rw [hlinked, if_neg hxr]
        simp
      · rw [if_neg hex, hinner,
          if_neg (show ¬∃ ru ∈ r :: rest, x ∈ ru.antecedents from by
            rintro ⟨ru, hru, hx⟩
            rcases List.mem_cons.mp hru with rfl | hru2
            · exact hxr hx
            · exact hex ⟨ru, hru2, hx⟩)]

/-- The accumulator loop of `avgAssociatedSales` computes the sum and count
of the qualifying `quantity × confidence` terms. -/
theorem avgFold_eq (df : List DailyRow) (d : ℤ) :
    ∀ (pairs : List (ℕ × ℚ)) (s : ℚ) (k : ℕ),
      pairs.foldl
        (fun (sc : ℚ × ℕ) cp =>
          match salesOn df cp.1 d with
          | some q => (sc.1 + q * cp.2, sc.2 + 1)
          | none => sc)
        (s, k)
      = (s + (pairs.filterMap
            (fun cp => (salesOn df cp.1 d).map (fun q => q * cp.2))).sum,
         k + (pairs.filterMap
            (fun cp => (salesOn df cp.1 d).map (fun q => q * cp.2))).length) := by
  intro pairs
  induction pairs with
  | nil => intro s k; simp
  | cons cp rest ih =>
    intro s k
    simp only [List.foldl_cons, List.filterMap_cons]
    cases h : salesOn df cp.1 d with
    | none => simp only [h, Option.map_none]; exact ih s k
    | some q =>
      simp only [h, Option.map_some]
      rw [ih (s + q * cp.2) (k + 1)]
      simp [add_assoc, add_comm, add_left_comm]

/-- `avgAssociatedSales` equals the spec's sum-over-qualifying-consequents
divided by their count (0 when none qualifies). -/
theorem avgAssociatedSales_eq (df : List DailyRow) (pairs : List (ℕ × ℚ))
    (d : ℤ) :
    avgAssociatedSales df pairs d
      = if (pairs.filterMap
            (fun cp => (salesOn df cp.1 d).map (fun q => q * cp.2))).length = 0
        then 0
        else (pairs.filterMap
            (fun cp => (salesOn df cp.1 d).map (fun q => q * cp.2))).sum
          / ((pairs.filterMap
            (fun cp => (salesOn df cp.1 d).map (fun q => q * cp.2))).length : ℚ) := by
  unfold avgAssociatedSales
  rw [avgFold_eq df d pairs 0 0]
  simp only [zero_add, Nat.zero_add]
  by_cases h : (pairs.filterMap
      (fun cp => (salesOn df cp.1 d).map (fun q => q * cp.2))).length = 0
  · rw [if_neg (by omega), if_pos h]
  · rw [if_pos (by omega), if_neg h]

/-- Claim C10: every `AssociatedProductSales` value written by
`add_association_features` for a row with product X and date D equals the
specification's formula: the sum over X's rule-linked consequents with a
recorded sale on D of `sale × confidence`, divided by the number of such
consequents, and 0 when no consequent qualifies or X is antecedent of no
rule.  The antecedent lists are duplicate-free, as lists built from
frozensets are. -/
theorem c10_association_feature (daily_sales : List DailyRow)
    (rules : List FeatureRule) (hnd : ∀ ru ∈ rules, ru.antecedents.Nodup)
    (r : DailyRow) (v : ℚ)
    (hmem : (r, v) ∈ add_association_features daily_sales rules) :
    v = specAssociatedProductSales daily_sales rules r.productId r.date := by
  unfold add_association_features at hmem
  rw [List.mem_map] at hmem
  obtain ⟨r0, hr0, heq⟩ := hmem
  obtain ⟨rfl, rfl⟩ : r0 = r ∧
      (match dictFind (buildProductAssociations rules) r0.productId with
        | some pairs => avgAssociatedSales daily_sales pairs r0.date
        | none => 0) = v := by
    exact ⟨congrArg Prod.fst heq, congrArg Prod.snd heq⟩
  rw [dictFind_buildProductAssociations rules r0.productId hnd]
  unfold specAssociatedProductSales
  by_cases hex : ∃ ru ∈ rules, r0.productId ∈ ru.antecedents
  · rw [if_pos hex]
    exact avgAssociatedSales_eq daily_sales (ruleLinked rules r0.productId) r0.date
  · rw [if_neg hex]
    rw [ruleLinked_eq_nil rules r0.productId
      (fun ru hru hx => hex ⟨ru, hru, hx⟩)]
    simp

/-- Witness for `c10_association_feature`, which is also the spec's worked
example: a single rule 0 → 1 with confidence 0.6 and product 1 selling 10
units on day 0 gives product 0 the value 10 × 0.6 = 6. -/
theorem c10_witness :
    (6 : ℚ) = specAssociatedProductSales
      [⟨0, 0, 7⟩, ⟨0, 1, 10⟩] [⟨[0], [1], 3/5⟩]
      (⟨0, 0, 7⟩ : DailyRow).productId (⟨0, 0, 7⟩ : DailyRow).date :=
  c10_association_feature [⟨0, 0, 7⟩, ⟨0, 1, 10⟩] [⟨[0], [1], 3/5⟩]
    (by decide) ⟨0, 0, 7⟩ 6 (by decide)

/-- Claim C8: a requested product with no rows in the historical data is
skipped — the forecast table contains zero rows for it and the function is
total (never raises) — and when no requested product has history the whole
forecast table is empty (with the expected columns, being a list of
`ForecastRow`). -/
theorem c8_missing_history (model : PredInput → ℝ) (hasAssocFeature : Bool)
    (data : List SaleRow) (products_to_forecast : List ℕ) (horizon : ℕ) :
    (∀ p, data.filter (fun r => r.productId = p) = [] →
      (predict_demand model hasAssocFeature data products_to_forecast
        horizon).filter (fun r => r.productId = p) = [])
    ∧ ((∀ q ∈ products_to_forecast, data.filter (fun r => r.productId = q) = []) →
      predict_demand model hasAssocFeature data products_to_forecast horizon = []) := by
  constructor
  · intro p hp
    rw [List.filter_eq_nil_iff]
    intro r hr
    unfold predict_demand at hr
    rw [List.mem_flatMap] at hr
    obtain ⟨pid, -, hr⟩ := hr
    by_cases hpd : (data.filter (fun r => r.productId = pid)).isEmpty
    · rw [if_pos hpd] at hr
      cases hr
    · rw [if_neg hpd] at hr
      rw [List.mem_map] at hr
      obtain ⟨d, -, rfl⟩ := hr
      intro hcontra
      have hpidp : pid = p := by simpa using hcontra
      subst hpidp
      rw [hp] at hpd
      exact hpd rfl
  · intro hall
    rw [List.eq_nil_iff_forall_not_mem]
    intro r hr
    unfold predict_demand at hr
    rw [List.mem_flatMap] at hr
    obtain ⟨pid, hpid, hr⟩ := hr
    rw [if_pos (by rw [hall pid hpid]; rfl)] at hr
    cases hr

/-- Witness for `c8_missing_history`: product 7 is requested but only product
5 has history — no rows for 7 are produced; and with no requested product
having history the table is empty. -/
theorem c8_witness :
    (predict_demand (fun _ => 0) true [⟨0, 5, 3⟩] [7] 2).filter
        (fun r => r.productId = 7) = []
    ∧ predict_demand (fun _ => 0) true [⟨0, 5, 3⟩] [7] 2 = [] :=
  ⟨(c8_missing_history (fun _ => 0) true [⟨0, 5, 3⟩] [7] 2).1 7 (by rfl),
   (c8_missing_history (fun _ => 0) true [⟨0, 5, 3⟩] [7] 2).2
     (by
       intro q hq
       have : q = 7 := by simpa using hq
       subst this
       rfl)⟩

/-- Claim C9: every Predicted_Quantity in the table returned by
`predict_demand` is ≥ 0, for any model function, data, product list and
horizon — non-negativity is enforced by the final clip
(`clip(lower=0)`, modelled as `max 0 ·` on reals; an IEEE NaN prediction,
which `clip` would keep, has no counterpart in the real-valued model). -/
theorem c9_nonnegative_forecast (model : PredInput → ℝ) (hasAssocFeature : Bool)
    (data : List SaleRow) (products_to_forecast : List ℕ) (horizon : ℕ) :
    (predict_demand model hasAssocFeature data products_to_forecast
      horizon).Forall (fun r => 0 ≤ r.predicted) := by
  rw [List.forall_iff_forall_mem]
  intro r hr
  unfold predict_demand at hr
  rw [List.mem_flatMap] at hr
  obtain ⟨pid, -, hr⟩ := hr
  by_cases hp : (data.filter (fun r => r.productId = pid)).isEmpty
  · rw [if_pos hp] at hr
    cases hr
  · rw [if_neg hp] at hr
    rw [List.mem_map] at hr
    obtain ⟨d, -, rfl⟩ := hr
    exact le_max_left 0 _

theorem listMean_nonneg (xs : List ℝ) (h : ∀ x ∈ xs, 0 ≤ x) :
    0 ≤ listMean xs := by
  unfold listMean
  exact div_nonneg (List.sum_nonneg h) (Nat.cast_nonneg _)

theorem sampleStd_nonneg (xs : List ℝ) : 0 ≤ sampleStd xs :=
  Real.sqrt_nonneg _

theorem serviceFactor_pos (service_level : ℚ) : 0 < serviceFactor service_level := by
  unfold serviceFactor
  split_ifs <;> norm_num

theorem qtysOf_nonneg (hist : List DemandRow) (p : ℕ)
    (h : ∀ r ∈ hist, 0 ≤ r.quantity) : ∀ x ∈ qtysOf hist p, 0 ≤ x := by
  intro x hx
  unfold qtysOf at hx
  rw [List.mem_map] at hx
  obtain ⟨r, hr, rfl⟩ := hx
  exact h r (List.mem_filter.mp hr).1

theorem safetyStockOf_nonneg (hist : List DemandRow) (service_level : ℚ)
    (lead_time_days : ℕ) (p : ℕ) (h : ∀ r ∈ hist, 0 ≤ r.quantity) :
    0 ≤ safetyStockOf hist service_level lead_time_days p := by
  unfold safetyStockOf
  apply Int.ceil_nonneg
  split_ifs
  · have := listMean_nonneg (qtysOf hist p) (qtysOf_nonneg hist p h)
    positivity
  · have h1 := sampleStd_nonneg (qtysOf hist p)
    have h2 := (serviceFactor_pos service_level).le
    have h3 := Real.sqrt_nonneg (lead_time_days : ℝ)
    positivity

theorem safetyStockOf_mono (hist : List DemandRow) (service_level : ℚ)
    (L1 L2 : ℕ) (p : ℕ) (hL : L1 ≤ L2) :
    safetyStockOf hist service_level L1 p ≤ safetyStockOf hist service_level L2 p := by
  unfold safetyStockOf
  apply Int.ceil_le_ceil
  split_ifs
  · exact le_refl _
  · apply mul_le_mul_of_nonneg_left
    · exact Real.sqrt_le_sqrt (Nat.cast_le.mpr hL)
    · exact mul_nonneg (sampleStd_nonneg _) (serviceFactor_pos service_level).le

theorem mapsum_filter_mono (l : List ForecastRow) (P Q : ForecastRow → Bool)
    (himp : ∀ x ∈ l, P x = true → Q x = true)
    (hpos : ∀ x ∈ l, 0 ≤ x.predicted) :
    ((l.filter P).map (·.predicted)).sum ≤ ((l.filter Q).map (·.predicted)).sum := by
  induction l with
  | nil => simp
  | cons x t ih =>
    have ih2 := ih (fun y hy => himp y (List.mem_cons_of_mem x hy))
      (fun y hy => hpos y (List.mem_cons_of_mem x hy))
    by_cases hP : P x = true
    · rw [List.filter_cons_of_pos hP,
        List.filter_cons_of_pos (himp x (List.mem_cons_self x t) hP)]
      simp only [List.map_cons, List.sum_cons]
      exact add_le_add_left ih2 _
    · rw [List.filter_cons_of_neg hP]
      by_cases hQ : Q x = true
      · rw [List.filter_cons_of_pos hQ]
        simp only [List.map_cons, List.sum_cons]
        calc ((t.filter P).map (·.predicted)).sum
            ≤ ((t.filter Q).map (·.predicted)).sum := ih2
          _ ≤ x.predicted + ((t.filter Q).map (·.predicted)).sum :=
              le_add_of_nonneg_left (hpos x (List.mem_cons_self x t))
      · rw [List.filter_cons_of_neg hQ]
        exact ih2

theorem window_filter_subset (fore : List ForecastRow) (today : ℤ)
    (L1 L2 : ℕ) (p : ℕ) (hL : L1 ≤ L2) (r : ForecastRow)
    (hr : r ∈ (windowRows fore today L1).filter (fun r => r.productId = p)) :
    r ∈ (windowRows fore today L2).filter (fun r => r.productId = p) := by
  rw [List.mem_filter] at hr ⊢
  refine ⟨?_, hr.2⟩
  have h1 := hr.1
  unfold windowRows at h1 ⊢
  rw [List.mem_filter] at h1 ⊢
  refine ⟨h1.1, ?_⟩
  have h2 : today ≤ r.date ∧ r.date ≤ today + (L1 : ℤ) := of_decide_eq_true h1.2
  exact decide_eq_true ⟨h2.1, le_trans h2.2 (by omega)⟩

theorem leadTimeDemandOf_nonneg (hist : List DemandRow) (fore : List ForecastRow)
    (lead_time_days : ℕ) (today : ℤ) (p : ℕ)
    (hq : ∀ r ∈ hist, 0 ≤ r.quantity) (hf : ∀ r ∈ fore, 0 ≤ r.predicted) :
    0 ≤ leadTimeDemandOf hist fore lead_time_days today p := by
  unfold leadTimeDemandOf
  dsimp only
  split_ifs
  · exact mul_nonneg (listMean_nonneg _ (qtysOf_nonneg hist p hq)) (Nat.cast_nonneg _)
  · apply List.sum_nonneg
    intro x hx
    rw [List.mem_map] at hx
    obtain ⟨r, hr, rfl⟩ := hx
    have h1 := (List.mem_filter.mp hr).1
    unfold windowRows at h1
    exact hf r (List.mem_filter.mp h1).1

theorem leadTimeDemandOf_mono (hist : List DemandRow) (fore : List ForecastRow)
    (L1 L2 : ℕ) (today : ℤ) (p : ℕ)
    (hq : ∀ r ∈ hist, 0 ≤ r.quantity) (hf : ∀ r ∈ fore, 0 ≤ r.predicted)
    (hL : L1 ≤ L2)
    (hbranch : ((windowRows fore today L1).filter (fun r => r.productId = p)) ≠ []
      ∨ ((windowRows fore today L2).filter (fun r => r.productId = p)) = []) :
    leadTimeDemandOf hist fore L1 today p ≤ leadTimeDemandOf hist fore L2 today p := by
  rcases hbranch with h1 | h2
  · -- forecast rows exist in the narrow window, hence also in the wide one
    obtain ⟨r, hr⟩ := List.exists_mem_of_ne_nil _ h1
    have hr2 := window_filter_subset fore today L1 L2 p hL r hr
    unfold leadTimeDemandOf
    dsimp only
    rw [if_neg (by simpa [List.isEmpty_iff] using List.ne_nil_of_mem hr),
      if_neg (by simpa [List.isEmpty_iff] using List.ne_nil_of_mem hr2)]
    -- sum over the narrow window ≤ sum over the wide window
    unfold windowRows
    rw [List.filter_filter, List.filter_filter]
    apply mapsum_filter_mono
    · intro x hx hPx
      rw [Bool.and_eq_true] at hPx ⊢
      refine ⟨hPx.1, ?_⟩
      have h2 := of_decide_eq_true hPx.2
      exact decide_eq_true ⟨h2.1, by omega⟩
    · intro x hx
      exact hf x hx
  · -- no forecast rows even in the wide window: both sides fall back
    have h1 : ((windowRows fore today L1).filter (fun r => r.productId = p)) = [] := by
      rw [List.eq_nil_iff_forall_not_mem]
      intro r hr
      have := window_filter_subset fore today L1 L2 p hL r hr
      rw [h2] at this
      cases this
    unfold leadTimeDemandOf
    dsimp only
    rw [if_pos (by simp [h1]), if_pos (by simp [h2])]
    exact mul_le_mul_of_nonneg_left (Nat.cast_le.mpr hL)
      (listMean_nonneg _ (qtysOf_nonneg hist p hq))

theorem reorderPointOf_nonneg (hist : List DemandRow) (fore : List ForecastRow)
    (lead_time_days : ℕ) (service_level : ℚ) (today : ℤ) (p : ℕ)
    (hq : ∀ r ∈ hist, 0 ≤ r.quantity) (hf : ∀ r ∈ fore, 0 ≤ r.predicted) :
    0 ≤ reorderPointOf hist fore lead_time_days service_level today p := by
  unfold reorderPointOf
  apply Int.ceil_nonneg
  have h1 := leadTimeDemandOf_nonneg hist fore lead_time_days today p hq hf
  have h2 := safetyStockOf_nonneg hist service_level lead_time_days p hq
  have h3 : (0 : ℝ) ≤ (safetyStockOf hist service_level lead_time_days p : ℝ) := by
    exact_mod_cast h2
  linarith

theorem reorderPointOf_mono (hist : List DemandRow) (fore : List ForecastRow)
    (L1 L2 : ℕ) (service_level : ℚ) (today : ℤ) (p : ℕ)
    (hq : ∀ r ∈ hist, 0 ≤ r.quantity) (hf : ∀ r ∈ fore, 0 ≤ r.predicted)
    (hL : L1 ≤ L2)
    (hbranch : ((windowRows fore today L1).filter (fun r => r.productId = p)) ≠ []
      ∨ ((windowRows fore today L2).filter (fun r => r.productId = p)) = []) :
    reorderPointOf hist fore L1 service_level today p
      ≤ reorderPointOf hist fore L2 service_level today p := by
  unfold reorderPointOf
  apply Int.ceil_le_ceil
  have h1 := leadTimeDemandOf_mono hist fore L1 L2 today p hq hf hL hbranch
  have h2 := safetyStockOf_mono hist service_level L1 L2 p hL
  have h3 : (safetyStockOf hist service_level L1 p : ℝ)
      ≤ (safetyStockOf hist service_level L2 p : ℝ) := by exact_mod_cast h2
  linarith

theorem eoqOf_nonneg (hist : List PricedRow) (holding_cost_pct ordering_cost : ℝ)
    (p : ℕ) :
    0 ≤ eoqOf hist holding_cost_pct ordering_cost p := by
  unfold eoqOf
  dsimp only
  exact Int.ceil_nonneg (Real.sqrt_nonneg _)

theorem demandEval_mean :
    listMean (qtysOf [⟨1, 100⟩, ⟨1, 100⟩] 1) = 100 := by
  rw [show qtysOf [⟨1, 100⟩, ⟨1, 100⟩] 1 = [100, 100] from rfl]
  unfold listMean
  norm_num [List.sum_cons]

theorem demandEval_std :
    sampleStd (qtysOf [⟨1, 100⟩, ⟨1, 100⟩] 1) = 0 := by
  rw [show qtysOf [⟨1, 100⟩, ⟨1, 100⟩] 1 = [100, 100] from rfl]
  unfold sampleStd listMean
  norm_num [List.sum_cons]

theorem demandEval_safety (L : ℕ) :
    safetyStockOf [⟨1, 100⟩, ⟨1, 100⟩] (95/100) L 1 = 20 := by
  unfold safetyStockOf
  dsimp only
  rw [demandEval_std, if_pos rfl, demandEval_mean]
  norm_num

theorem demandEval_ltd_w2_t10 :
    leadTimeDemandOf [⟨1, 100⟩, ⟨1, 100⟩] [⟨13, 1, 1⟩] 2 10 1 = 200 := by
  unfold leadTimeDemandOf
  dsimp only
  rw [show windowRows [⟨13, 1, 1⟩] 10 2 = [] from rfl]
  simp only [List.filter_nil, List.map_nil, List.isEmpty_nil, if_true]
  rw [demandEval_mean]
  norm_num

theorem demandEval_ltd_w3_t10 :
    leadTimeDemandOf [⟨1, 100⟩, ⟨1, 100⟩] [⟨13, 1, 1⟩] 3 10 1 = 1 := by
  unfold leadTimeDemandOf
  dsimp only
  rw [show ((windowRows [⟨13, 1, 1⟩] 10 3).filter
    (fun r => r.productId = 1)).map (fun r => r.predicted) = [1] from rfl]
  norm_num

theorem demandEval_rp_w2_t10 :
    reorderPointOf [⟨1, 100⟩, ⟨1, 100⟩] [⟨13, 1, 1⟩] 2 (95/100) 10 1 = 220 := by
  unfold reorderPointOf
  rw [demandEval_ltd_w2_t10, demandEval_safety 2]
  norm_num

theorem demandEval_rp_w3_t10 :
    reorderPointOf [⟨1, 100⟩, ⟨1, 100⟩] [⟨13, 1, 1⟩] 3 (95/100) 10 1 = 21 := by
  unfold reorderPointOf
  rw [demandEval_ltd_w3_t10, demandEval_safety 3]
  norm_num

theorem demandEval_ltd_w2_t12 :
    leadTimeDemandOf [⟨1, 100⟩, ⟨1, 100⟩] [⟨13, 1, 1⟩] 2 12 1 = 1 := by
  unfold leadTimeDemandOf
  dsimp only
  rw [show ((windowRows [⟨13, 1, 1⟩] 12 2).filter
    (fun r => r.productId = 1)).map (fun r => r.predicted) = [1] from rfl]
  norm_num

theorem demandEval_rp_w2_t12 :
    reorderPointOf [⟨1, 100⟩, ⟨1, 100⟩] [⟨13, 1, 1⟩] 2 (95/100) 12 1 = 21 := by
  unfold reorderPointOf
  rw [demandEval_ltd_w2_t12, demandEval_safety 2]
  norm_num

/-- Claim C7, counterexample: with constant historical demand 100 (mean 100,
std 0, safety stock 20) and a single forecast row of 1 unit dated today + 3,
the reorder point at lead time 3 (window reaches the forecast row: 1 + 20 =
21) is strictly below the reorder point at lead time 2 (window misses it, so
the mean × lead-time fallback applies: 200 + 20 = 220) — the reorder point is
not non-decreasing in lead_time_days. -/
theorem c7_counterexample :
    reorderPointOf [⟨1, 100⟩, ⟨1, 100⟩] [⟨13, 1, 1⟩] 3 (95/100) 10 1
      < reorderPointOf [⟨1, 100⟩, ⟨1, 100⟩] [⟨13, 1, 1⟩] 2 (95/100) 10 1 := by
  rw [demandEval_rp_w3_t10, demandEval_rp_w2_t10]
  decide

/-- Claim C2, counterexample: `calculate_reorder_points` reads the wall
clock; with all arguments fixed, running it on day 10 and on day 12 gives
different tables (reorder point 220 vs 21), because the lead-time window
[today, today + 2] misses the forecast row dated 13 on day 10 and contains it
on day 12. -/
theorem c2_counterexample :
    calculate_reorder_points [⟨1, 100⟩, ⟨1, 100⟩] [⟨13, 1, 1⟩] 2 (95/100) 10
      ≠ calculate_reorder_points [⟨1, 100⟩, ⟨1, 100⟩] [⟨13, 1, 1⟩] 2 (95/100) 12 := by
  unfold calculate_reorder_points
  rw [show sortedPids (([⟨1, 100⟩, ⟨1, 100⟩] : List DemandRow).map
    (fun r => r.productId)) = [1] from rfl]
  simp only [List.map_cons, List.map_nil]
  intro h
  have h1 := List.head_eq_of_cons_eq h
  have h2 := congrArg (fun t => t.2.2.2.2.2) h1
  simp only at h2
  rw [demandEval_rp_w2_t10, demandEval_rp_w2_t12] at h2
  exact absurd h2 (by decide)

/-- Claim C7 (amended): with non-negative historical demand and forecasts,
reorder points and EOQs are non-negative for every product; EOQ takes no
lead-time argument at all (so it is trivially non-decreasing in
lead_time_days); and the reorder point is non-decreasing in lead_time_days
provided the product's windowed forecast does not switch from empty to
non-empty between the two lead times (when it does, the mean × lead-time
fallback can exceed the windowed forecast total, and the reorder point can
decrease — see the counterexample).  In the source, a product with negative
prices or a single demand observation produces NaN; those floating-point
corners have no counterpart in this real-valued model. -/
theorem c7_amended (hist : List DemandRow) (fore : List ForecastRow)
    (pricedHist : List PricedRow) (L1 L2 : ℕ) (service_level : ℚ)
    (today : ℤ) (p : ℕ) (holding_cost_pct ordering_cost : ℝ)
    (hq : ∀ r ∈ hist, 0 ≤ r.quantity) (hf : ∀ r ∈ fore, 0 ≤ r.predicted)
    (hL : L1 ≤ L2)
    (hbranch : ((windowRows fore today L1).filter (fun r => r.productId = p)) ≠ []
      ∨ ((windowRows fore today L2).filter (fun r => r.productId = p)) = []) :
    0 ≤ reorderPointOf hist fore L1 service_level today p
    ∧ 0 ≤ eoqOf pricedHist holding_cost_pct ordering_cost p
    ∧ reorderPointOf hist fore L1 service_level today p
        ≤ reorderPointOf hist fore L2 service_level today p :=
  ⟨reorderPointOf_nonneg hist fore L1 service_level today p hq hf,
   eoqOf_nonneg pricedHist holding_cost_pct ordering_cost p,
   reorderPointOf_mono hist fore L1 L2 service_level today p hq hf hL hbranch⟩

/-- Witness for `c7_amended`: constant demand 100, one forecast row dated 11
inside both windows [10, 12] and [10, 13]. -/
theorem c7_witness :
    0 ≤ reorderPointOf [⟨1, 100⟩, ⟨1, 100⟩] [⟨11, 1, 1⟩] 2 (95/100) 10 1
    ∧ 0 ≤ eoqOf [⟨1, 0, 4, 4⟩] (1/4) 25 1
    ∧ reorderPointOf [⟨1, 100⟩, ⟨1, 100⟩] [⟨11, 1, 1⟩] 2 (95/100) 10 1
        ≤ reorderPointOf [⟨1, 100⟩, ⟨1, 100⟩] [⟨11, 1, 1⟩] 3 (95/100) 10 1 :=
  c7_amended [⟨1, 100⟩, ⟨1, 100⟩] [⟨11, 1, 1⟩] [⟨1, 0, 4, 4⟩] 2 3 (95/100) 10 1
    (1/4) 25
    (by intro r hr; rcases List.mem_cons.mp hr with rfl | hr2; · norm_num
        · rcases List.mem_cons.mp hr2 with rfl | hr3; · norm_num
          · cases hr3)
    (by intro r hr; rcases List.mem_cons.mp hr with rfl | hr2; · norm_num
        · cases hr2)
    (by omega)
    (Or.inl (by
      rw [show (windowRows [⟨11, 1, 1⟩] 10 2).filter (fun r => r.productId = 1)
        = [⟨11, 1, 1⟩] from rfl]
      exact List.cons_ne_nil _ _))

/-- Claim C2 (amended): determinism holds only relative to the current
wall-clock date.  `calculate_reorder_points` reads `datetime.now()`, so it is
a pure function of its arguments plus the current date, and its dependence on
the date factors entirely through the windowed forecast: two runs whose
lead-time windows select the same forecast rows give identical tables.  Model
fitting uses the fixed seed 42 (not modelled); the remaining modelled
operations are plain functions of their arguments. -/
theorem c2_amended (hist : List DemandRow) (fore : List ForecastRow)
    (lead_time_days : ℕ) (service_level : ℚ) (t1 t2 : ℤ)
    (hwin : windowRows fore t1 lead_time_days = windowRows fore t2 lead_time_days) :
    calculate_reorder_points hist fore lead_time_days service_level t1
      = calculate_reorder_points hist fore lead_time_days service_level t2 := by
  unfold calculate_reorder_points reorderPointOf leadTimeDemandOf
  rw [hwin]

/-- Witness for `c2_amended`: with the only forecast row dated 100, the
windows [0, 1] and [1, 2] select the same (empty) forecast subset, and the
tables on day 0 and day 1 coincide. -/
theorem c2_witness :
    calculate_reorder_points [⟨1, 100⟩] [⟨100, 1, 5⟩] 1 (95/100) 0
      = calculate_reorder_points [⟨1, 100⟩] [⟨100, 1, 5⟩] 1 (95/100) 1 :=
  c2_amended [⟨1, 100⟩] [⟨100, 1, 5⟩] 1 (95/100) 0 1 (by rfl)
